import Mathlib

/-!
Verification of the redox-log fan-out logger (src/src/lib.rs) against its
specification. The Rust code is shallowly embedded: `log::Level` and
`log::LevelFilter` become finite inductive types compared through their
numeric discriminants, the `RedoxLogger` struct and its builder-style
operations become pure functions on an explicit state, and each output's
`Mutex<Box<dyn Write>>` endpoint is modelled as a record that tracks lock
poisoning, write/flush success, and the lines and flushes it has received.
-/

namespace RedoxLog

/-- Severity of a log record, from the external log crate: `log::Level` has
variants Error, Warn, Info, Debug, Trace with discriminants 1 to 5. -/
inductive Level
  | error
  | warn
  | info
  | debug
  | trace
deriving DecidableEq, Repr

/-- Numeric discriminant of `log::Level` (Error = 1, ..., Trace = 5); the
log crate compares levels and filters as these `usize` values. -/
def Level.toNat : Level → Nat
  | .error => 1
  | .warn => 2
  | .info => 3
  | .debug => 4
  | .trace => 5

instance : Fintype Level where
  elems := {.error, .warn, .info, .debug, .trace}
  complete := by intro x; cases x <;> decide

/-- Verbosity filter, from the external log crate: `log::LevelFilter` has
variants Off, Error, Warn, Info, Debug, Trace with discriminants 0 to 5. -/
inductive LevelFilter
  | off
  | error
  | warn
  | info
  | debug
  | trace
deriving DecidableEq, Repr

/-- Numeric discriminant of `log::LevelFilter` (Off = 0, ..., Trace = 5). -/
def LevelFilter.toNat : LevelFilter → Nat
  | .off => 0
  | .error => 1
  | .warn => 2
  | .info => 3
  | .debug => 4
  | .trace => 5

instance : Fintype LevelFilter where
  elems := {.off, .error, .warn, .info, .debug, .trace}
  complete := by intro x; cases x <;> decide

/-- Rust `std::cmp::max` on `log::LevelFilter` under its derived `Ord`
(discriminant order); `max` returns the second argument on ties. -/
def maxLF (a b : LevelFilter) : LevelFilter :=
  if b.toNat < a.toNat then a else b

/-- Rust `std::cmp::min` on `log::LevelFilter` under its derived `Ord`
(discriminant order); `min` returns the first argument on ties. -/
def minLF (a b : LevelFilter) : LevelFilter :=
  if b.toNat < a.toNat then b else a

/-- Model of an `Output`'s endpoint, the `Mutex<Box<dyn Write + Send>>` in
the source. `poisoned` makes `lock()` fail (the loop in `log`/`flush` then
skips this output); `writeOk` and `flushOk` say whether the underlying
stream's write and flush calls succeed. `writeCalls` records every line
passed to a write attempt, `written` the lines the stream accepted, and
`flushCalls` counts flush invocations (successful or not) — write and flush
errors are discarded by the source (`let _ = ...`), so failure leaves no
other trace in the state. -/
structure Endpoint where
  poisoned : Bool := false
  writeOk : Bool := true
  flushOk : Bool := true
  written : List String := []
  writeCalls : List String := []
  flushCalls : Nat := 0
deriving DecidableEq, Repr

/-- The `Output` struct of the source: one destination, with its endpoint,
its `flush_on_newline` policy, its severity `filter`, and its `ansi` flag. -/
structure Output where
  endpoint : Endpoint
  flush_on_newline : Bool
  filter : LevelFilter
  ansi : Bool
deriving DecidableEq, Repr

/-- Convenience constructor for a healthy output with a given filter,
matching the builder defaults (`flush_on_newline` true, `ansi` false). -/
def mkOut (f : LevelFilter) : Output :=
  { endpoint := {}, flush_on_newline := true, filter := f, ansi := false }

/-- The `RedoxLogger` struct of the source: the ordered outputs, the two
optional global overrides, and the two aggregate levels in use. -/
structure RedoxLogger where
  outputs : List Output := []
  min_filter : Option LevelFilter := none
  max_filter : Option LevelFilter := none
  max_level_in_use : Option LevelFilter := none
  min_level_in_use : Option LevelFilter := none
deriving DecidableEq, Repr

/-- `RedoxLogger::new`, which is `Default::default()`: no outputs, no
overrides, no aggregate levels. -/
def RedoxLogger.new : RedoxLogger := {}

/-- `RedoxLogger::adjust_output_level`: clamps the output's filter with the
overrides (`max` via `cmp::max`, then `min` via `cmp::min`) and folds the
resulting filter into the two aggregates. Returns the mutated output and
the updated `max_level_in_use` and `min_level_in_use`. -/
def RedoxLogger.adjust_output_level (max_filter min_filter : Option LevelFilter)
    (max_in_use min_in_use : Option LevelFilter) (output : Output) :
    Output × Option LevelFilter × Option LevelFilter :=
  let f := match max_filter with
    | some max => maxLF output.filter max
    | none => output.filter
  let f := match min_filter with
    | some min => minLF f min
    | none => f
  let maxU := match max_in_use with
    | some max => some (maxLF f max)
    | none => some f
  let minU := match min_in_use with
    | some min => some (minLF f min)
    | none => some f
  ({ output with filter := f }, maxU, minU)

/-- `RedoxLogger::with_output`: adjust the new output's level, then push it
onto the outputs sequence. -/
def RedoxLogger.with_output (self : RedoxLogger) (output : Output) : RedoxLogger :=
  let r := RedoxLogger.adjust_output_level self.max_filter self.min_filter
    self.max_level_in_use self.min_level_in_use output
  { self with
    outputs := self.outputs ++ [r.1]
    max_level_in_use := r.2.1
    min_level_in_use := r.2.2 }

/-- The `for output in &mut self.outputs` loop shared by the two override
setters: runs `adjust_output_level` on every output in order, threading the
two aggregate accumulators through. -/
def RedoxLogger.adjustAll (max_filter min_filter : Option LevelFilter) :
    List Output → Option LevelFilter → Option LevelFilter →
      List Output × Option LevelFilter × Option LevelFilter
  | [], mx, mn => ([], mx, mn)
  | o :: rest, mx, mn =>
    let r := RedoxLogger.adjust_output_level max_filter min_filter mx mn o
    let rec' := RedoxLogger.adjustAll max_filter min_filter rest r.2.1 r.2.2
    (r.1 :: rec'.1, rec'.2.1, rec'.2.2)

/-- `RedoxLogger::with_min_level_override`: store the override, then adjust
every existing output. -/
def RedoxLogger.with_min_level_override (self : RedoxLogger) (min : LevelFilter) :
    RedoxLogger :=
  let minf := some min
  let r := RedoxLogger.adjustAll self.max_filter minf self.outputs
    self.max_level_in_use self.min_level_in_use
  { self with
    min_filter := minf
    outputs := r.1
    max_level_in_use := r.2.1
    min_level_in_use := r.2.2 }

/-- `RedoxLogger::with_max_level_override`: store the override, then adjust
every existing output. -/
def RedoxLogger.with_max_level_override (self : RedoxLogger) (max : LevelFilter) :
    RedoxLogger :=
  let maxf := some max
  let r := RedoxLogger.adjustAll maxf self.min_filter self.outputs
    self.max_level_in_use self.min_level_in_use
  { self with
    max_filter := maxf
    outputs := r.1
    max_level_in_use := r.2.1
    min_level_in_use := r.2.2 }

/-- `log::Log::enabled` for `RedoxLogger`, literally: the record's level
must be at least `max_level_in_use` (bound locally `min` in the source) and
at most `min_level_in_use` (bound locally `max`); each side is false when
the aggregate is `None`. Level-vs-filter comparisons are on discriminants,
as in the log crate. -/
def RedoxLogger.enabled (self : RedoxLogger) (level : Level) : Bool :=
  (match self.max_level_in_use with
    | some min => decide (min.toNat ≤ level.toNat)
    | none => false)
  && (match self.min_level_in_use with
    | some max => decide (level.toNat ≤ max.toNat)
    | none => false)

/-- Display name of a `log::Level`, as the log crate's `Display` impl
prints it (`as_str` over the upper-case `LOG_LEVEL_NAMES` table). -/
def Level.asStr : Level → String
  | .error => "ERROR"
  | .warn => "WARN"
  | .info => "INFO"
  | .debug => "DEBUG"
  | .trace => "TRACE"

/-- Components of the local time `chrono::Local::now()` observed when a
record is written: calendar fields, milliseconds, and the UTC offset. -/
structure Timestamp where
  year : Nat
  month : Nat
  day : Nat
  hour : Nat
  minute : Nat
  second : Nat
  millis : Nat
  offNeg : Bool
  offHour : Nat
  offMin : Nat
deriving DecidableEq, Repr

/-- Zero-pad a number to a given width, as chrono's numeric directives do. -/
def pad (w n : Nat) : String :=
  let s := toString n
  String.mk (List.replicate (w - s.length) '0') ++ s

/-- Modelled from chrono 0.4's strftime semantics for the exact format
string in the source, `"%Y-%m-%dT%H-%M-%S.%.3f+%:z"`: `%Y` is the year
zero-padded to 4 digits; `%m` `%d` `%H` `%M` `%S` are zero-padded to 2;
`%.3f` prints a leading dot plus exactly 3 fractional-second digits
(milliseconds); `%:z` prints the signed UTC offset as `+HH:MM`/`-HH:MM`;
every other character (including the `-` separators inside the time, the
`.` before `%.3f` and the `+` before `%:z`) is emitted literally. -/
def formatTime (t : Timestamp) : String :=
  pad 4 t.year ++ "-" ++ pad 2 t.month ++ "-" ++ pad 2 t.day ++ "T" ++
    pad 2 t.hour ++ "-" ++ pad 2 t.minute ++ "-" ++ pad 2 t.second ++
    "." ++ ("." ++ pad 3 t.millis) ++
    "+" ++ ((if t.offNeg then "-" else "+") ++ pad 2 t.offHour ++ ":" ++ pad 2 t.offMin)

/-- A log record as `write_record` and `log` consume it: severity, target,
optional module path, optional source line, and the rendered message. -/
structure Record where
  level : Level
  target : String
  module_path : Option String := none
  line : Option Nat := none
  args : String
deriving DecidableEq, Repr

/-- One contiguous piece of formatter output: either a styling escape
sequence emitted by a termion color/style value (`sty`) or semantic text
(`txt`). -/
inductive Chunk
  | sty (s : String)
  | txt (s : String)
deriving DecidableEq, Repr

/-- Bytes of a chunk. -/
def Chunk.bytes : Chunk → String
  | .sty s => s
  | .txt s => s

/-- Concatenate a chunk sequence into the byte string actually written. -/
def render (cs : List Chunk) : String :=
  cs.foldr (fun c acc => c.bytes ++ acc) ""

/-- Concatenate a chunk sequence after removing every styling escape
sequence. -/
def stripStyles (cs : List Chunk) : String :=
  cs.foldr (fun c acc => match c with | .sty _ => acc | .txt s => s ++ acc) ""

/-- Escape sequence of `termion::color::Fg(color::LightBlack)`. -/
def fgLightBlack : String := "\x1b[38;5;8m"

/-- Escape sequence of `termion::color::Fg(color::White)`. -/
def fgWhite : String := "\x1b[38;5;7m"

/-- Escape sequence of `termion::color::Fg(color::LightBlue)`. -/
def fgLightBlue : String := "\x1b[38;5;12m"

/-- Escape sequence of `termion::color::Fg(color::LightYellow)`. -/
def fgLightYellow : String := "\x1b[38;5;11m"

/-- Escape sequence of `termion::color::Fg(color::LightRed)`. -/
def fgLightRed : String := "\x1b[38;5;9m"

/-- Escape sequence of `termion::color::Fg(color::LightWhite)`. -/
def fgLightWhite : String := "\x1b[38;5;15m"

/-- Escape sequence of `termion::color::Fg(color::Reset)`. -/
def fgReset : String := "\x1b[39m"

/-- Escape sequence of `termion::style::Bold`. -/
def styleBold : String := "\x1b[1m"

/-- Escape sequence of `termion::style::Italic`. -/
def styleItalic : String := "\x1b[3m"

/-- Escape sequence of `termion::style::Reset`. -/
def styleReset : String := "\x1b[m"

/-- The per-severity foreground color table of `write_record`
(`level_color`). -/
def levelColor : Level → String
  | .trace => fgLightBlack
  | .debug => fgWhite
  | .info => fgLightBlue
  | .warn => fgLightYellow
  | .error => fgLightRed

/-- The message color of `write_record`: dim white for Trace/Debug, bright
white for Info/Warn/Error. -/
def messageColor : Level → String
  | .trace => fgWhite
  | .debug => fgWhite
  | .info => fgLightWhite
  | .warn => fgLightWhite
  | .error => fgLightWhite

/-- The message style of `write_record`: the empty `regular_style` for
Trace/Debug, bold for Info/Warn/Error. -/
def messageStyle : Level → String
  | .trace => ""
  | .debug => ""
  | .info => styleBold
  | .warn => styleBold
  | .error => styleBold

/-- The `LineFmt` display of `write_record`: with a line number it prints
`":<line>"`, colored LightBlack (with a color reset) when ansi is on;
with no line number it prints nothing. -/
def lineFmtChunks (line : Option Nat) (ansi : Bool) : List Chunk :=
  match line with
  | some n =>
    if ansi then [.sty fgLightBlack, .txt (":" ++ toString n), .sty fgReset]
    else [.txt (":" ++ toString n)]
  | none => [.txt ""]

/-- The chunk sequence `RedoxLogger::write_record` emits for a record, for
both branches of the `if ansi` split. Both use the line shape
`"<time> [<target><line> <level>] <message>\n"`; the ansi branch wraps
time (italic + LightBlack), target (White), level (bold + its color) and
message (its style + color) in termion sequences, each followed by the
style and/or color reset the source emits. The target is
`record.module_path().unwrap_or(record.target())`. -/
def recordChunks (ansi : Bool) (now : Timestamp) (record : Record) : List Chunk :=
  let time := formatTime now
  let target := record.module_path.getD record.target
  let level := record.level
  let message := record.args
  if ansi then
    [.sty styleItalic, .sty fgLightBlack, .txt time, .sty styleReset, .sty fgReset,
      .txt " [",
      .sty fgWhite, .txt target, .sty fgReset] ++
    lineFmtChunks record.line true ++
    [.txt " ",
      .sty styleBold, .sty (levelColor level), .txt level.asStr, .sty styleReset, .sty fgReset,
      .txt "] ",
      .sty (messageStyle level), .sty (messageColor level), .txt message,
      .sty styleReset, .sty fgReset,
      .txt "\n"]
  else
    [.txt time, .txt " [", .txt target] ++
    lineFmtChunks record.line false ++
    [.txt " ", .txt level.asStr, .txt "] ", .txt message, .txt "\n"]

/-- `RedoxLogger::write_record` as the byte string it writes: the rendered
chunk sequence. Formatting itself has no error path; only the write of
these bytes can fail. -/
def write_record (ansi : Bool) (now : Timestamp) (record : Record) : String :=
  render (recordChunks ansi now record)

/-- Writing a line to an endpoint: the attempt is always recorded; the
stream accepts the line only when its writes succeed, and a failure is
discarded by the caller (`let _ = Self::write_record(..)`). -/
def writeToEndpoint (e : Endpoint) (s : String) : Endpoint :=
  { e with
    writeCalls := e.writeCalls ++ [s]
    written := if e.writeOk then e.written ++ [s] else e.written }

/-- Flushing an endpoint: the call is counted; its error, if any, is
discarded by the caller (`let _ = endpoint_guard.flush()`). -/
def flushEndpoint (e : Endpoint) : Endpoint :=
  { e with flushCalls := e.flushCalls + 1 }

/-- One iteration of the loop in `log::Log::log`: a poisoned lock means
`continue` (the output is untouched); otherwise the record is written when
its level passes the output's filter, and the endpoint is flushed when
`flush_on_newline` is set. -/
def logStep (now : Timestamp) (record : Record) (output : Output) : Output :=
  if output.endpoint.poisoned then output
  else
    let e := output.endpoint
    let e := if record.level.toNat ≤ output.filter.toNat then
        writeToEndpoint e (write_record output.ansi now record)
      else e
    let e := if output.flush_on_newline then flushEndpoint e else e
    { output with endpoint := e }

/-- The `for output in &self.outputs` loop of `log::Log::log`, in insertion
order. -/
def logAll (now : Timestamp) (record : Record) : List Output → List Output
  | [] => []
  | o :: rest => logStep now record o :: logAll now record rest

/-- `log::Log::log` for `RedoxLogger`: run the dispatch loop over the
outputs. -/
def RedoxLogger.log (self : RedoxLogger) (now : Timestamp) (record : Record) :
    RedoxLogger :=
  { self with outputs := logAll now record self.outputs }

/-- One iteration of `log::Log::flush`: skip a poisoned output, otherwise
flush it, discarding any error. -/
def flushStep (output : Output) : Output :=
  if output.endpoint.poisoned then output
  else { output with endpoint := flushEndpoint output.endpoint }

/-- `log::Log::flush` for `RedoxLogger`: best-effort flush of every
output. -/
def RedoxLogger.flushAll (self : RedoxLogger) : RedoxLogger :=
  { self with outputs := self.outputs.map flushStep }

/-- Model of the global state owned by the log facade: whether a logger is
installed (`log::set_logger` fails on a second call) and the process-wide
maximum level set by `log::set_max_level`. -/
structure Facade where
  installed : Bool := false
  maxLevel : LevelFilter := .off
deriving DecidableEq, Repr

/-- `RedoxLogger::enable`: installs the logger through `log::set_logger`
(failing if one is installed) and, on success, sets the facade's maximum
level to `max_level_in_use`, or to `Off` when that aggregate is unset. -/
def RedoxLogger.enable (self : RedoxLogger) (st : Facade) : Except Unit Facade :=
  if st.installed then .error ()
  else
    .ok { installed := true
          maxLevel := match self.max_level_in_use with
            | some max => max
            | none => .off }

/-- One builder-style mutation of a `RedoxLogger`. -/
inductive BuilderOp
  | addOutput (o : Output)
  | overrideMin (m : LevelFilter)
  | overrideMax (m : LevelFilter)
deriving DecidableEq, Repr

/-- Apply one builder-style mutation. -/
def applyOp (L : RedoxLogger) : BuilderOp → RedoxLogger
  | .addOutput o => L.with_output o
  | .overrideMin m => L.with_min_level_override m
  | .overrideMax m => L.with_max_level_override m

/-- Apply a sequence of builder-style mutations, left to right. -/
def applyOps (L : RedoxLogger) (ops : List BuilderOp) : RedoxLogger :=
  ops.foldl applyOp L

/-- Append a list of outputs through `with_output`, left to right. -/
def addOutputs (L : RedoxLogger) (outs : List Output) : RedoxLogger :=
  outs.foldl RedoxLogger.with_output L

/-- The effective filter an output ends up with after one
`adjust_output_level` call: the stored filter clamped by the `max` override
(via `cmp::max`), then by the `min` override (via `cmp::min`). -/
def clampF (max_filter min_filter : Option LevelFilter) (f : LevelFilter) : LevelFilter :=
  let f := match max_filter with
    | some max => maxLF f max
    | none => f
  match min_filter with
  | some min => minLF f min
  | none => f

/-- Fold one filter into the `max_level_in_use` aggregate, as
`adjust_output_level` does. -/
def updMax (a : Option LevelFilter) (f : LevelFilter) : Option LevelFilter :=
  match a with
  | some m => some (maxLF f m)
  | none => some f

/-- Fold one filter into the `min_level_in_use` aggregate, as
`adjust_output_level` does. -/
def updMin (a : Option LevelFilter) (f : LevelFilter) : Option LevelFilter :=
  match a with
  | some m => some (minLF f m)
  | none => some f

/-- The aggregate `max_level_in_use` bounds every stored filter from
above (and is present as soon as an output is). -/
def MaxBounded (L : RedoxLogger) : Prop :=
  ∀ o ∈ L.outputs, ∃ M, L.max_level_in_use = some M ∧ o.filter.toNat ≤ M.toNat

/-- The aggregate `min_level_in_use` bounds every stored filter from
below (and is present as soon as an output is). -/
def MinBounded (L : RedoxLogger) : Prop :=
  ∀ o ∈ L.outputs, ∃ m, L.min_level_in_use = some m ∧ m.toNat ≤ o.filter.toNat

theorem maxLF_left_le (a b : LevelFilter) : a.toNat ≤ (maxLF a b).toNat := by
  revert a b; decide

theorem maxLF_right_le (a b : LevelFilter) : b.toNat ≤ (maxLF a b).toNat := by
  revert a b; decide

theorem minLF_le_left (a b : LevelFilter) : (minLF a b).toNat ≤ a.toNat := by
  revert a b; decide

theorem minLF_le_right (a b : LevelFilter) : (minLF a b).toNat ≤ b.toNat := by
  revert a b; decide

theorem maxLF_comm (a b : LevelFilter) : maxLF a b = maxLF b a := by
  revert a b; decide

theorem maxLF_left_comm (a b c : LevelFilter) :
    maxLF a (maxLF b c) = maxLF b (maxLF a c) := by
  revert a b c; decide

theorem minLF_comm (a b : LevelFilter) : minLF a b = minLF b a := by
  revert a b; decide

theorem minLF_left_comm (a b c : LevelFilter) :
    minLF a (minLF b c) = minLF b (minLF a c) := by
  revert a b c; decide

theorem clampF_min_le (maxf : Option LevelFilter) (m f : LevelFilter) :
    (clampF maxf (some m) f).toNat ≤ m.toNat := by
  revert maxf m f; decide

theorem clampF_max_ge (m f : LevelFilter) :
    m.toNat ≤ (clampF (some m) none f).toNat := by
  revert m f; decide

theorem clampF_none_none (f : LevelFilter) : clampF none none f = f := rfl

theorem updMax_bound (a : Option LevelFilter) (f : LevelFilter) :
    ∃ M, updMax a f = some M ∧ f.toNat ≤ M.toNat := by
  cases a with
  | none => exact ⟨f, rfl, Nat.le_refl _⟩
  | some m => exact ⟨maxLF f m, rfl, maxLF_left_le f m⟩

theorem updMin_bound (a : Option LevelFilter) (f : LevelFilter) :
    ∃ m, updMin a f = some m ∧ m.toNat ≤ f.toNat := by
  cases a with
  | none => exact ⟨f, rfl, Nat.le_refl _⟩
  | some m => exact ⟨minLF f m, rfl, minLF_le_left f m⟩

theorem foldl_updMax_acc (l : List LevelFilter) :
    ∀ m : LevelFilter, ∃ M, l.foldl updMax (some m) = some M ∧ m.toNat ≤ M.toNat := by
  induction l with
  | nil => intro m; exact ⟨m, rfl, Nat.le_refl _⟩
  | cons x l ih =>
    intro m
    obtain ⟨M, hM, hle⟩ := ih (maxLF x m)
    exact ⟨M, by simpa [updMax] using hM, Nat.le_trans (maxLF_right_le x m) hle⟩

theorem foldl_updMin_acc (l : List LevelFilter) :
    ∀ m : LevelFilter, ∃ M, l.foldl updMin (some m) = some M ∧ M.toNat ≤ m.toNat := by
  induction l with
  | nil => intro m; exact ⟨m, rfl, Nat.le_refl _⟩
  | cons x l ih =>
    intro m
    obtain ⟨M, hM, hle⟩ := ih (minLF x m)
    exact ⟨M, by simpa [updMin] using hM, Nat.le_trans hle (minLF_le_right x m)⟩

theorem foldl_updMax_mem (l : List LevelFilter) :
    ∀ (a : Option LevelFilter) (f : LevelFilter), f ∈ l →
      ∃ M, l.foldl updMax a = some M ∧ f.toNat ≤ M.toNat := by
  induction l with
  | nil => intro a f h; cases h
  | cons x l ih =>
    intro a f h
    rcases List.mem_cons.mp h with h | h
    · subst h
      obtain ⟨c, hc, hfc⟩ := updMax_bound a f
      obtain ⟨M, hM, hcM⟩ := foldl_updMax_acc l c
      refine ⟨M, ?_, Nat.le_trans hfc hcM⟩
      simpa [List.foldl_cons, hc] using hM
    · obtain ⟨M, hM, hfM⟩ := ih (updMax a x) f h
      exact ⟨M, by simpa [List.foldl_cons] using hM, hfM⟩

theorem foldl_updMin_mem (l : List LevelFilter) :
    ∀ (a : Option LevelFilter) (f : LevelFilter), f ∈ l →
      ∃ m, l.foldl updMin a = some m ∧ m.toNat ≤ f.toNat := by
  induction l with
  | nil => intro a f h; cases h
  | cons x l ih =>
    intro a f h
    rcases List.mem_cons.mp h with h | h
    · subst h
      obtain ⟨c, hc, hfc⟩ := updMin_bound a f
      obtain ⟨m, hm, hcm⟩ := foldl_updMin_acc l c
      refine ⟨m, ?_, Nat.le_trans hcm hfc⟩
      simpa [List.foldl_cons, hc] using hm
    · obtain ⟨m, hm, hfm⟩ := ih (updMin a x) f h
      exact ⟨m, by simpa [List.foldl_cons] using hm, hfm⟩

theorem updMax_swap (a : Option LevelFilter) (x y : LevelFilter) :
    updMax (updMax a x) y = updMax (updMax a y) x := by
  cases a with
  | none => simp [updMax, maxLF_comm y x]
  | some m => simp [updMax, maxLF_left_comm y x m]

theorem updMin_swap (a : Option LevelFilter) (x y : LevelFilter) :
    updMin (updMin a x) y = updMin (updMin a y) x := by
  cases a with
  | none => simp [updMin, minLF_comm y x]
  | some m => simp [updMin, minLF_left_comm y x m]

theorem foldl_updMax_perm {l l' : List LevelFilter} (p : l.Perm l') :
    ∀ a, l.foldl updMax a = l'.foldl updMax a := by
  induction p with
  | nil => intro a; rfl
  | cons x _ ih => intro a; simpa [List.foldl_cons] using ih (updMax a x)
  | swap x y l => intro a; simp only [List.foldl_cons]; rw [updMax_swap]
  | trans _ _ ih1 ih2 => intro a; rw [ih1, ih2]

theorem foldl_updMin_perm {l l' : List LevelFilter} (p : l.Perm l') :
    ∀ a, l.foldl updMin a = l'.foldl updMin a := by
  induction p with
  | nil => intro a; rfl
  | cons x _ ih => intro a; simpa [List.foldl_cons] using ih (updMin a x)
  | swap x y l => intro a; simp only [List.foldl_cons]; rw [updMin_swap]
  | trans _ _ ih1 ih2 => intro a; rw [ih1, ih2]

theorem adjust_eq (maxf minf mx mn : Option LevelFilter) (o : Output) :
    RedoxLogger.adjust_output_level maxf minf mx mn o =
      ({ o with filter := clampF maxf minf o.filter },
        updMax mx (clampF maxf minf o.filter),
        updMin mn (clampF maxf minf o.filter)) := rfl

theorem adjustAll_eq (maxf minf : Option LevelFilter) (outs : List Output) :
    ∀ mx mn : Option LevelFilter,
      RedoxLogger.adjustAll maxf minf outs mx mn =
        (outs.map (fun o => { o with filter := clampF maxf minf o.filter }),
          (outs.map (fun o => clampF maxf minf o.filter)).foldl updMax mx,
          (outs.map (fun o => clampF maxf minf o.filter)).foldl updMin mn) := by
  induction outs with
  | nil => intro mx mn; rfl
  | cons o rest ih =>
    intro mx mn
    simp [RedoxLogger.adjustAll, adjust_eq, ih, List.foldl_cons]

theorem with_output_eq (L : RedoxLogger) (o : Output) :
    L.with_output o =
      { L with
        outputs := L.outputs ++ [{ o with filter := clampF L.max_filter L.min_filter o.filter }]
        max_level_in_use := updMax L.max_level_in_use (clampF L.max_filter L.min_filter o.filter)
        min_level_in_use := updMin L.min_level_in_use (clampF L.max_filter L.min_filter o.filter) } := rfl

theorem with_min_override_eq (L : RedoxLogger) (m : LevelFilter) :
    L.with_min_level_override m =
      { L with
        min_filter := some m
        outputs := L.outputs.map (fun o => { o with filter := clampF L.max_filter (some m) o.filter })
        max_level_in_use :=
          (L.outputs.map (fun o => clampF L.max_filter (some m) o.filter)).foldl updMax
            L.max_level_in_use
        min_level_in_use :=
          (L.outputs.map (fun o => clampF L.max_filter (some m) o.filter)).foldl updMin
            L.min_level_in_use } := by
  simp [RedoxLogger.with_min_level_override, adjustAll_eq]

theorem with_max_override_eq (L : RedoxLogger) (m : LevelFilter) :
    L.with_max_level_override m =
      { L with
        max_filter := some m
        outputs := L.outputs.map (fun o => { o with filter := clampF (some m) L.min_filter o.filter })
        max_level_in_use :=
          (L.outputs.map (fun o => clampF (some m) L.min_filter o.filter)).foldl updMax
            L.max_level_in_use
        min_level_in_use :=
          (L.outputs.map (fun o => clampF (some m) L.min_filter o.filter)).foldl updMin
            L.min_level_in_use } := by
  simp [RedoxLogger.with_max_level_override, adjustAll_eq]

theorem maxBounded_with_output {L : RedoxLogger} (h : MaxBounded L) (o : Output) :
    MaxBounded (L.with_output o) := by
  intro x hx
  rw [with_output_eq] at hx ⊢
  rcases List.mem_append.mp hx with hx | hx
  · obtain ⟨M, hM, hxM⟩ := h x hx
    have hM2 : updMax L.max_level_in_use (clampF L.max_filter L.min_filter o.filter) =
        some (maxLF (clampF L.max_filter L.min_filter o.filter) M) := by
      rw [hM]; rfl
    exact ⟨_, hM2, Nat.le_trans hxM (maxLF_right_le _ _)⟩
  · rcases List.mem_singleton.mp hx with rfl
    obtain ⟨M, hM, hle⟩ := updMax_bound L.max_level_in_use (clampF L.max_filter L.min_filter o.filter)
    exact ⟨M, hM, hle⟩

theorem minBounded_with_output {L : RedoxLogger} (h : MinBounded L) (o : Output) :
    MinBounded (L.with_output o) := by
  intro x hx
  rw [with_output_eq] at hx ⊢
  rcases List.mem_append.mp hx with hx | hx
  · obtain ⟨m, hm, hxm⟩ := h x hx
    have heq : updMin L.min_level_in_use (clampF L.max_filter L.min_filter o.filter) =
        some (minLF (clampF L.max_filter L.min_filter o.filter) m) := by
      rw [hm]; rfl
    exact ⟨_, heq, Nat.le_trans (minLF_le_right _ _) hxm⟩
  · rcases List.mem_singleton.mp hx with rfl
    obtain ⟨m, hm, hle⟩ := updMin_bound L.min_level_in_use (clampF L.max_filter L.min_filter o.filter)
    exact ⟨m, hm, hle⟩

theorem maxBounded_adjusted (mx : Option LevelFilter) (maxf minf : Option LevelFilter)
    (outs : List Output) :
    ∀ x ∈ outs.map (fun o => { o with filter := clampF maxf minf o.filter }),
      ∃ M, (outs.map (fun o => clampF maxf minf o.filter)).foldl updMax mx = some M ∧
        x.filter.toNat ≤ M.toNat := by
  intro x hx
  obtain ⟨o, ho, rfl⟩ := List.mem_map.mp hx
  exact foldl_updMax_mem _ mx _ (List.mem_map.mpr ⟨o, ho, rfl⟩)

theorem minBounded_adjusted (mn : Option LevelFilter) (maxf minf : Option LevelFilter)
    (outs : List Output) :
    ∀ x ∈ outs.map (fun o => { o with filter := clampF maxf minf o.filter }),
      ∃ m, (outs.map (fun o => clampF maxf minf o.filter)).foldl updMin mn = some m ∧
        m.toNat ≤ x.filter.toNat := by
  intro x hx
  obtain ⟨o, ho, rfl⟩ := List.mem_map.mp hx
  exact foldl_updMin_mem _ mn _ (List.mem_map.mpr ⟨o, ho, rfl⟩)

theorem maxBounded_min_override (L : RedoxLogger) (m : LevelFilter) :
    MaxBounded (L.with_min_level_override m) := by
  intro x hx
  rw [with_min_override_eq] at hx ⊢
  exact maxBounded_adjusted L.max_level_in_use L.max_filter (some m) L.outputs x hx

theorem minBounded_min_override (L : RedoxLogger) (m : LevelFilter) :
    MinBounded (L.with_min_level_override m) := by
  intro x hx
  rw [with_min_override_eq] at hx ⊢
  exact minBounded_adjusted L.min_level_in_use L.max_filter (some m) L.outputs x hx

theorem maxBounded_max_override (L : RedoxLogger) (m : LevelFilter) :
    MaxBounded (L.with_max_level_override m) := by
  intro x hx
  rw [with_max_override_eq] at hx ⊢
  exact maxBounded_adjusted L.max_level_in_use (some m) L.min_filter L.outputs x hx

theorem minBounded_max_override (L : RedoxLogger) (m : LevelFilter) :
    MinBounded (L.with_max_level_override m) := by
  intro x hx
  rw [with_max_override_eq] at hx ⊢
  exact minBounded_adjusted L.min_level_in_use (some m) L.min_filter L.outputs x hx

/-- For a logger that has never had an override set, the aggregates are
exactly the max/min fold of the stored filters. -/
def Exact (L : RedoxLogger) : Prop :=
  L.max_filter = none ∧ L.min_filter = none ∧
  L.max_level_in_use = (L.outputs.map Output.filter).foldl updMax none ∧
  L.min_level_in_use = (L.outputs.map Output.filter).foldl updMin none

theorem exact_new : Exact RedoxLogger.new := ⟨rfl, rfl, rfl, rfl⟩

theorem exact_with_output {L : RedoxLogger} (h : Exact L) (o : Output) :
    Exact (L.with_output o) := by
  obtain ⟨hmax, hmin, hM, hm⟩ := h
  rw [Exact, with_output_eq]
  refine ⟨hmax, hmin, ?_, ?_⟩
  · simp [hmax, hmin, clampF_none_none, List.map_append, List.foldl_append, hM]
  · simp [hmax, hmin, clampF_none_none, List.map_append, List.foldl_append, hm]

theorem maxBounded_applyOps : ∀ (ops : List BuilderOp) (L : RedoxLogger),
    MaxBounded L → MaxBounded (applyOps L ops) := by
  intro ops
  induction ops with
  | nil => intro L h; exact h
  | cons op rest ih =>
    intro L h
    show MaxBounded (applyOps (applyOp L op) rest)
    apply ih
    cases op with
    | addOutput o => exact maxBounded_with_output h o
    | overrideMin m => exact maxBounded_min_override L m
    | overrideMax m => exact maxBounded_max_override L m

theorem minBounded_applyOps : ∀ (ops : List BuilderOp) (L : RedoxLogger),
    MinBounded L → MinBounded (applyOps L ops) := by
  intro ops
  induction ops with
  | nil => intro L h; exact h
  | cons op rest ih =>
    intro L h
    show MinBounded (applyOps (applyOp L op) rest)
    apply ih
    cases op with
    | addOutput o => exact minBounded_with_output h o
    | overrideMin m => exact minBounded_min_override L m
    | overrideMax m => exact minBounded_max_override L m

theorem exact_applyOps : ∀ (ops : List BuilderOp),
    (∀ op ∈ ops, ∃ o, op = BuilderOp.addOutput o) →
    ∀ L : RedoxLogger, Exact L → Exact (applyOps L ops) := by
  intro ops
  induction ops with
  | nil => intro _ L h; exact h
  | cons op rest ih =>
    intro hops L h
    obtain ⟨o, rfl⟩ := hops op (List.mem_cons_self op rest)
    show Exact (applyOps (L.with_output o) rest)
    exact ih (fun op hm => hops op (List.mem_cons_of_mem _ hm)) _ (exact_with_output h o)

theorem applyOps_no_output : ∀ (ops : List BuilderOp),
    (∀ op ∈ ops, ∀ o, op ≠ BuilderOp.addOutput o) →
    ∀ L : RedoxLogger, L.outputs = [] → L.max_level_in_use = none →
      (applyOps L ops).outputs = [] ∧ (applyOps L ops).max_level_in_use = none := by
  intro ops
  induction ops with
  | nil => intro _ L h1 h2; exact ⟨h1, h2⟩
  | cons op rest ih =>
    intro hops L h1 h2
    have hrest : ∀ op ∈ rest, ∀ o, op ≠ BuilderOp.addOutput o :=
      fun op hm => hops op (List.mem_cons_of_mem _ hm)
    cases op with
    | addOutput o => exact absurd rfl (hops _ (List.mem_cons_self _ _) o)
    | overrideMin m =>
      show (applyOps ((L.with_min_level_override m)) rest).outputs = [] ∧ _
      apply ih hrest
      · rw [with_min_override_eq]; simp [h1]
      · rw [with_min_override_eq]; simp [h1, h2]
    | overrideMax m =>
      show (applyOps ((L.with_max_level_override m)) rest).outputs = [] ∧ _
      apply ih hrest
      · rw [with_max_override_eq]; simp [h1]
      · rw [with_max_override_eq]; simp [h1, h2]

theorem addOutputs_max (outs : List Output) : ∀ L : RedoxLogger,
    (addOutputs L outs).max_level_in_use =
      (outs.map (fun o => clampF L.max_filter L.min_filter o.filter)).foldl updMax
        L.max_level_in_use := by
  induction outs with
  | nil => intro L; rfl
  | cons o rest ih =>
    intro L
    show (addOutputs (L.with_output o) rest).max_level_in_use = _
    rw [ih (L.with_output o)]
    rfl

theorem addOutputs_min (outs : List Output) : ∀ L : RedoxLogger,
    (addOutputs L outs).min_level_in_use =
      (outs.map (fun o => clampF L.max_filter L.min_filter o.filter)).foldl updMin
        L.min_level_in_use := by
  induction outs with
  | nil => intro L; rfl
  | cons o rest ih =>
    intro L
    show (addOutputs (L.with_output o) rest).min_level_in_use = _
    rw [ih (L.with_output o)]
    rfl

/-- Timestamp fixture: local time 2024-01-01T00:00:00.000 at UTC offset
+00:00. -/
def ts2024 : Timestamp :=
  { year := 2024, month := 1, day := 1, hour := 0, minute := 0, second := 0,
    millis := 0, offNeg := false, offHour := 0, offMin := 0 }

/-- Record fixture: severity Info, target app::net, no module path, no line
number, message listening. -/
def recListening : Record := { level := .info, target := "app::net", args := "listening" }

/-- Output fixture whose stream rejects every write (its lock is healthy). -/
def badOut : Output :=
  { endpoint := { writeOk := false }, flush_on_newline := true, filter := .trace, ansi := false }

/-- C1: the claim says `enabled` returns true iff at least one output's
filter accepts the severity, and false on an empty router. The code
instead tests `max_level_in_use <= level <= min_level_in_use`, an
intersection over reversed aggregates: with outputs filtered at Info and
Trace, a Trace record is accepted by the Trace output (so the claim, and
the union semantics the spec declares to be the intent, say true), yet
`enabled` returns false. The empty-router half does hold. -/
theorem claim1_enabled_rejects_admissible_severity :
    ((RedoxLogger.new.with_output (mkOut .info)).with_output (mkOut .trace)).enabled .trace
        = false ∧
    (∃ o ∈ ((RedoxLogger.new.with_output (mkOut .info)).with_output (mkOut .trace)).outputs,
      Level.trace.toNat ≤ o.filter.toNat) ∧
    (∀ lvl : Level, RedoxLogger.new.enabled lvl = false) := by
  decide

/-- C2, counterexample: `with_max_level_override Info` on a Trace output
leaves the filter at Trace (the code raises filters with `cmp::max`, it
does not cap them), `with_min_level_override Info` on an Error output
leaves it at Error, and after `with_min_level_override Info` on a Trace
output the aggregate `max_level_in_use` still holds the pre-clamp value
Trace while every stored filter is Info. -/
theorem claim2_override_clamp_counterexample :
    (¬ ∀ o ∈ ((RedoxLogger.new.with_output (mkOut .trace)).with_max_level_override .info).outputs,
      o.filter.toNat ≤ LevelFilter.info.toNat) ∧
    (¬ ∀ o ∈ ((RedoxLogger.new.with_output (mkOut .error)).with_min_level_override .info).outputs,
      LevelFilter.info.toNat ≤ o.filter.toNat) ∧
    ((RedoxLogger.new.with_output (mkOut .trace)).with_min_level_override .info).outputs.map
        Output.filter = [.info] ∧
    ((RedoxLogger.new.with_output (mkOut .trace)).with_min_level_override .info).max_level_in_use
        = some .trace := by
  decide

/-- C2, amended: the clamp direction is the reverse of the claim —
`with_max_level_override max` raises every stored filter to at least `max`
(provided no min override is set; a set min override is re-applied last
and caps the result), and `with_min_level_override min` lowers every
stored filter to at most `min`; after either override the aggregates
bound every clamped filter (`max_level_in_use` from above,
`min_level_in_use` from below) but may retain pre-override
contributions. -/
theorem claim2_override_clamp_amended (L : RedoxLogger) (m : LevelFilter) :
    (L.min_filter = none →
      ∀ o ∈ (L.with_max_level_override m).outputs, m.toNat ≤ o.filter.toNat) ∧
    (∀ o ∈ (L.with_min_level_override m).outputs, o.filter.toNat ≤ m.toNat) ∧
    (MaxBounded (L.with_min_level_override m) ∧ MinBounded (L.with_min_level_override m)) ∧
    (MaxBounded (L.with_max_level_override m) ∧ MinBounded (L.with_max_level_override m)) := by
  refine ⟨?_, ?_, ⟨maxBounded_min_override L m, minBounded_min_override L m⟩,
    ⟨maxBounded_max_override L m, minBounded_max_override L m⟩⟩
  · intro hmin o ho
    rw [with_max_override_eq] at ho
    obtain ⟨o0, _, rfl⟩ := List.mem_map.mp ho
    show m.toNat ≤ (clampF (some m) L.min_filter o0.filter).toNat
    rw [hmin]
    exact clampF_max_ge m o0.filter
  · intro o ho
    rw [with_min_override_eq] at ho
    obtain ⟨o0, _, rfl⟩ := List.mem_map.mp ho
    show (clampF L.max_filter (some m) o0.filter).toNat ≤ m.toNat
    exact clampF_min_le L.max_filter m o0.filter

/-- C2, witness: the amended clamp bounds evaluated on a one-output
router with filter Info and override Debug. -/
theorem claim2_override_clamp_amended_witness :
    (∀ o ∈ ((RedoxLogger.new.with_output (mkOut .info)).with_max_level_override .debug).outputs,
      LevelFilter.debug.toNat ≤ o.filter.toNat) ∧
    (∀ o ∈ ((RedoxLogger.new.with_output (mkOut .info)).with_min_level_override .debug).outputs,
      o.filter.toNat ≤ LevelFilter.debug.toNat) :=
  ⟨(claim2_override_clamp_amended (RedoxLogger.new.with_output (mkOut .info)) .debug).1 rfl,
    (claim2_override_clamp_amended (RedoxLogger.new.with_output (mkOut .info)) .debug).2.1⟩

/-- C3, counterexample: after `with_output` of a Trace output followed by
`with_min_level_override Info`, the only stored filter is Info, but
`max_level_in_use` is still Trace — the incrementally patched aggregate
has drifted from the fold over the current destination set. -/
theorem claim3_aggregate_drift_counterexample :
    ¬ ((RedoxLogger.new.with_output (mkOut .trace)).with_min_level_override .info).max_level_in_use
        = ((((RedoxLogger.new.with_output (mkOut .trace)).with_min_level_override
            .info).outputs.map Output.filter).foldl updMax none) := by
  decide

/-- C3, amended: the aggregates never under-approximate — after any
sequence of mutations, `max_level_in_use` is an upper bound and
`min_level_in_use` a lower bound on every stored filter — and when every
mutation is a `with_output` (no overrides) they equal the exact fold of
the current filters; with overrides they are only monotone bounds and can
drift away from the fold. -/
theorem claim3_aggregates_bound_amended (ops : List BuilderOp) :
    MaxBounded (applyOps RedoxLogger.new ops) ∧ MinBounded (applyOps RedoxLogger.new ops) ∧
    ((∀ op ∈ ops, ∃ o, op = BuilderOp.addOutput o) →
      (applyOps RedoxLogger.new ops).max_level_in_use =
        ((applyOps RedoxLogger.new ops).outputs.map Output.filter).foldl updMax none ∧
      (applyOps RedoxLogger.new ops).min_level_in_use =
        ((applyOps RedoxLogger.new ops).outputs.map Output.filter).foldl updMin none) := by
  refine ⟨maxBounded_applyOps ops _ ?_, minBounded_applyOps ops _ ?_, ?_⟩
  · intro o ho; exact absurd ho (List.not_mem_nil o)
  · intro o ho; exact absurd ho (List.not_mem_nil o)
  · intro hops
    obtain ⟨_, _, hM, hm⟩ := exact_applyOps ops hops RedoxLogger.new exact_new
    exact ⟨hM, hm⟩

/-- C3, witness: the amended statement evaluated on two added outputs and
no overrides. -/
theorem claim3_aggregates_bound_amended_witness :
    MaxBounded (applyOps RedoxLogger.new
      [.addOutput (mkOut .info), .addOutput (mkOut .trace)]) ∧
    (applyOps RedoxLogger.new
        [.addOutput (mkOut .info), .addOutput (mkOut .trace)]).max_level_in_use =
      ((applyOps RedoxLogger.new
        [.addOutput (mkOut .info), .addOutput (mkOut .trace)]).outputs.map
          Output.filter).foldl updMax none :=
  ⟨(claim3_aggregates_bound_amended
      [.addOutput (mkOut .info), .addOutput (mkOut .trace)]).1,
    ((claim3_aggregates_bound_amended
      [.addOutput (mkOut .info), .addOutput (mkOut .trace)]).2.2
      (by
        intro op h
        rcases List.mem_cons.mp h with h | h
        · exact ⟨_, h⟩
        · rcases List.mem_cons.mp h with h | h
          · exact ⟨_, h⟩
          · exact absurd h (List.not_mem_nil op))).1⟩

/-- C9: the final aggregates after appending a list of outputs through
`with_output` do not depend on the order of the additions — for any
starting configuration (any fixed overrides) and any permutation of the
outputs, `max_level_in_use` and `min_level_in_use` agree. -/
theorem claim9_add_outputs_commutative (L : RedoxLogger) (outs outs2 : List Output)
    (p : outs.Perm outs2) :
    (addOutputs L outs).max_level_in_use = (addOutputs L outs2).max_level_in_use ∧
    (addOutputs L outs).min_level_in_use = (addOutputs L outs2).min_level_in_use := by
  rw [addOutputs_max, addOutputs_max, addOutputs_min, addOutputs_min]
  exact ⟨foldl_updMax_perm (p.map _) _, foldl_updMin_perm (p.map _) _⟩

/-- C9, witness: order independence evaluated on the two-element
permutation of an Info output and a Trace output. -/
theorem claim9_add_outputs_commutative_witness :
    (addOutputs RedoxLogger.new [mkOut .info, mkOut .trace]).max_level_in_use =
      (addOutputs RedoxLogger.new [mkOut .trace, mkOut .info]).max_level_in_use ∧
    (addOutputs RedoxLogger.new [mkOut .info, mkOut .trace]).min_level_in_use =
      (addOutputs RedoxLogger.new [mkOut .trace, mkOut .info]).min_level_in_use :=
  claim9_add_outputs_commutative RedoxLogger.new _ _
    (List.Perm.swap (mkOut .trace) (mkOut .info) [])

/-- C4: when an output's lock is acquirable, one dispatch step performs
the stream write of the formatted record exactly when the record's
severity ordinal is at most the output's filter ordinal; when the
severity is rejected no write is attempted at all. -/
theorem claim4_dispatch_filters_by_severity (now : Timestamp) (record : Record)
    (output : Output) (h : output.endpoint.poisoned = false) :
    (((logStep now record output).endpoint.writeCalls =
        output.endpoint.writeCalls ++ [write_record output.ansi now record]) ↔
      record.level.toNat ≤ output.filter.toNat) ∧
    (¬ record.level.toNat ≤ output.filter.toNat →
      (logStep now record output).endpoint.writeCalls = output.endpoint.writeCalls) := by
  by_cases hle : record.level.toNat ≤ output.filter.toNat <;>
    by_cases hf : output.flush_on_newline <;>
      simp [logStep, h, hle, hf, writeToEndpoint, flushEndpoint]

/-- C4, witness: the dispatch filter evaluated on an Info record against
an Info-filtered healthy output. -/
theorem claim4_dispatch_filters_by_severity_witness :
    (((logStep ts2024 recListening (mkOut .info)).endpoint.writeCalls =
        (mkOut .info).endpoint.writeCalls ++
          [write_record (mkOut .info).ansi ts2024 recListening]) ↔
      Level.info.toNat ≤ LevelFilter.info.toNat) ∧
    (¬ Level.info.toNat ≤ LevelFilter.info.toNat →
      (logStep ts2024 recListening (mkOut .info)).endpoint.writeCalls =
        (mkOut .info).endpoint.writeCalls) :=
  claim4_dispatch_filters_by_severity ts2024 recListening (mkOut .info) rfl

/-- C5: the dispatch loop treats every output independently — the result
at each position of the output list depends only on the output at that
position and the record, so a poisoned, failing-write or failing-flush
output cannot affect any other — and concretely, behind an output whose
stream rejects every write, a later healthy output still receives the
formatted record on its stream. Errors are discarded in place: `log`
returns nothing and performs at most one write attempt per output. -/
theorem claim5_per_output_isolation :
    (∀ (now : Timestamp) (record : Record) (outs : List Output) (i : Nat),
      (logAll now record outs)[i]? = outs[i]?.map (logStep now record)) ∧
    (∀ (now : Timestamp) (record : Record) (bad good : Output),
      good.endpoint.poisoned = false → good.endpoint.writeOk = true →
      record.level.toNat ≤ good.filter.toNat →
      (logAll now record [bad, good])[1]? = some (logStep now record good) ∧
      (logStep now record good).endpoint.written =
        good.endpoint.written ++ [write_record good.ansi now record]) := by
  constructor
  · intro now record outs
    induction outs with
    | nil => intro i; simp [logAll]
    | cons o rest ih =>
      intro i
      cases i with
      | zero => simp [logAll]
      | succ n => simpa [logAll] using ih n
  · intro now record bad good hp hw hle
    constructor
    · simp [logAll]
    · by_cases hf : good.flush_on_newline <;>
        simp [logStep, hp, hw, hle, hf, writeToEndpoint, flushEndpoint]

/-- C5, witness: a first output that rejects every write does not stop a
healthy Info output from receiving the record. -/
theorem claim5_per_output_isolation_witness :
    (logAll ts2024 recListening [badOut, mkOut .info])[1]? =
      some (logStep ts2024 recListening (mkOut .info)) ∧
    (logStep ts2024 recListening (mkOut .info)).endpoint.written =
      (mkOut .info).endpoint.written ++
        [write_record (mkOut .info).ansi ts2024 recListening] :=
  claim5_per_output_isolation.2 ts2024 recListening badOut (mkOut .info) rfl rfl (by decide)

/-- C6: on a fresh facade, `enable` succeeds, marks the facade installed,
and sets its maximum level to `max_level_in_use` (or Off when that is
unset); if the build sequence never added an output the level set is
Off. -/
theorem claim6_enable_sets_max_level (ops : List BuilderOp) (st : Facade)
    (h : st.installed = false) :
    ∃ st2 : Facade, (applyOps RedoxLogger.new ops).enable st = Except.ok st2 ∧
      st2.installed = true ∧
      st2.maxLevel = ((applyOps RedoxLogger.new ops).max_level_in_use).getD .off ∧
      ((∀ op ∈ ops, ∀ o, op ≠ BuilderOp.addOutput o) → st2.maxLevel = .off) := by
  refine ⟨{ installed := true
            maxLevel := ((applyOps RedoxLogger.new ops).max_level_in_use).getD .off },
    ?_, rfl, rfl, ?_⟩
  · cases hx : (applyOps RedoxLogger.new ops).max_level_in_use <;>
      simp [RedoxLogger.enable, h, hx]
  · intro hno
    have h2 := (applyOps_no_output ops hno RedoxLogger.new rfl rfl).2
    show ((applyOps RedoxLogger.new ops).max_level_in_use).getD .off = .off
    rw [h2]
    rfl

/-- C6, witness: enabling a router that only saw an override (no output
ever added) installs it and sets the facade level to Off. -/
theorem claim6_enable_sets_max_level_witness :
    ∃ st2 : Facade,
      (applyOps RedoxLogger.new [BuilderOp.overrideMin .info]).enable {} = Except.ok st2 ∧
      st2.installed = true ∧
      st2.maxLevel =
        ((applyOps RedoxLogger.new [BuilderOp.overrideMin .info]).max_level_in_use).getD .off ∧
      ((∀ op ∈ [BuilderOp.overrideMin .info], ∀ o, op ≠ BuilderOp.addOutput o) →
        st2.maxLevel = .off) :=
  claim6_enable_sets_max_level [BuilderOp.overrideMin .info] {} rfl

/-- C10: when an output's lock is acquirable and `flush_on_newline` is
set, every dispatch step flushes that output's stream exactly once — also
when the record's severity is rejected by the output's filter and nothing
was written for the record. -/
theorem claim10_flush_on_every_log (now : Timestamp) (record : Record) (output : Output)
    (hp : output.endpoint.poisoned = false) (hf : output.flush_on_newline = true) :
    ((logStep now record output).endpoint.flushCalls = output.endpoint.flushCalls + 1) ∧
    (¬ record.level.toNat ≤ output.filter.toNat →
      (logStep now record output).endpoint.written = output.endpoint.written ∧
      (logStep now record output).endpoint.writeCalls = output.endpoint.writeCalls) := by
  by_cases hle : record.level.toNat ≤ output.filter.toNat <;>
    simp [logStep, hp, hf, hle, writeToEndpoint, flushEndpoint]

/-- C10, witness: an Info record rejected by an Error-filtered output
still gets the output flushed, with nothing written. -/
theorem claim10_flush_on_every_log_witness :
    ((logStep ts2024 recListening (mkOut .error)).endpoint.flushCalls =
      (mkOut .error).endpoint.flushCalls + 1) ∧
    (logStep ts2024 recListening (mkOut .error)).endpoint.written =
      (mkOut .error).endpoint.written :=
  ⟨(claim10_flush_on_every_log ts2024 recListening (mkOut .error) rfl rfl).1,
    ((claim10_flush_on_every_log ts2024 recListening (mkOut .error) rfl rfl).2
      (by decide)).1⟩

/-- C7, counterexample: the plain formatter does not produce the claimed
line. The format string in the source is `%Y-%m-%dT%H-%M-%S.%.3f+%:z`:
it separates hour, minute and second with hyphens, its literal dot plus
`%.3f` (which itself prints a leading dot) yields a double dot, its
literal plus before `%:z` (which itself prints the offset sign) yields a
double plus, and the log crate renders the severity as upper-case INFO,
not Info. -/
theorem claim7_plain_format_counterexample :
    write_record false ts2024 recListening ≠
      "2024-01-01T00:00:00.000+00:00 [app::net Info] listening\n" := by
  decide

/-- C7, amended: on the record of the claim the plain formatter produces
exactly this line, byte for byte, trailing newline included. -/
theorem claim7_plain_format_amended :
    write_record false ts2024 recListening =
      "2024-01-01T00-00-00..000++00:00 [app::net INFO] listening\n" := by
  decide

/-- C8: for every record and timestamp, the styled output with all
styling escape sequences removed is byte-identical to the plain output. -/
theorem claim8_styled_strips_to_plain (now : Timestamp) (record : Record) :
    stripStyles (recordChunks true now record) = render (recordChunks false now record) := by
  cases h : record.line with
  | none => simp [recordChunks, lineFmtChunks, stripStyles, render, Chunk.bytes, h]
  | some n => simp [recordChunks, lineFmtChunks, stripStyles, render, Chunk.bytes, h]

end RedoxLog
